import Mathlib

/-!
Verification of the stroke-based drawing widget, the SVG bounce animation
and the product-listing script (repository `Lab-Task`).

The drawing widget (`src/task11/script.js`) keeps three module-level
variables: `drawing : Bool`, `currentStroke : {color, size, points} | null`
and `strokes : Stroke[]`.  We embed them as a `DrawState` record and embed
each mutation function (`beginStroke`, `addPointToStroke`, `endStroke`,
`undoLast`, `clearCanvas`) as a pure state transformer.

The renderer `redrawAll` clears the canvas and replays the committed
strokes; we model the surface it produces as the list of drawing commands
issued after the clear.
-/

/-- A point (client coordinates mapped to canvas CSS coordinates).
JS numbers are modelled as rationals. -/
structure Point where
  x : ℚ
  y : ℚ
deriving DecidableEq, Repr

/-- A stroke, as built by `beginStroke`: a CSS color string, a brush size
(`parseInt` of the slider value, hence an integer) and the ordered list of
recorded points. -/
structure Stroke where
  color : String
  size : Int
  points : List Point
deriving DecidableEq, Repr

/-- The module-level mutable state of the drawing script:
`let drawing = false; let currentStroke = null; let strokes = [];`. -/
structure DrawState where
  drawing : Bool
  currentStroke : Option Stroke
  strokes : List Stroke
deriving DecidableEq, Repr

/-- The initial state of the script (`drawing = false`, `currentStroke =
null`, `strokes = []`). -/
def initState : DrawState := ⟨false, none, []⟩

/-- `beginStroke(x, y)`: sets `drawing = true` and replaces `currentStroke`
with a fresh stroke holding the single point `{x, y}`; the brush color and
size are read from the controls at this moment (passed here as arguments). -/
def beginStroke (st : DrawState) (x y : ℚ) (color : String) (size : Int) :
    DrawState :=
  { st with drawing := true,
            currentStroke := some ⟨color, size, [⟨x, y⟩]⟩ }

/-- `addPointToStroke(x, y)`: returns immediately when `!drawing ||
!currentStroke`; otherwise pushes `{x, y}` onto the current stroke's
points.  (The incremental `drawSegment`/`drawDot` call only touches the
canvas, not this state.) -/
def addPointToStroke (st : DrawState) (x y : ℚ) : DrawState :=
  if st.drawing = false then st
  else
    match st.currentStroke with
    | none => st
    | some cs =>
        { st with currentStroke := some { cs with points := cs.points ++ [⟨x, y⟩] } }

/-- `endStroke()`: returns immediately when `!drawing`; otherwise sets
`drawing = false` and, if `currentStroke` exists and has at least one
point, pushes it onto `strokes` and nulls `currentStroke`. -/
def endStroke (st : DrawState) : DrawState :=
  if st.drawing = false then st
  else
    match st.currentStroke with
    | some cs =>
        if cs.points.length > 0 then
          { st with drawing := false,
                    strokes := st.strokes ++ [cs],
                    currentStroke := none }
        else { st with drawing := false }
    | none => { st with drawing := false }

/-- `undoLast()`: `strokes.pop()` removes the last element (a no-op on an
empty array); `currentStroke` and `drawing` are untouched.  The subsequent
`redrawAll()` only repaints the canvas. -/
def undoLast (st : DrawState) : DrawState :=
  { st with strokes := st.strokes.dropLast }

/-- `clearCanvas()`: `strokes = []; currentStroke = null;` (note the code
does not reset the `drawing` flag). -/
def clearCanvas (st : DrawState) : DrawState :=
  { st with strokes := [], currentStroke := none }

/-! ## The renderer -/

/-- One canvas drawing command issued by the renderer after the clear:
either a filled dot (`drawDot`, an arc of radius `size / 2`) or a
round-capped segment (`drawSegment`). -/
inductive DrawCmd where
  | dot (p : Point) (color : String) (size : Int)
  | segment (p1 p2 : Point) (color : String) (size : Int)
deriving DecidableEq, Repr

/-- The loop `for (let i = 1; i < pts.length; i++) drawSegment(pts[i-1],
pts[i], color, size)`: one segment per consecutive pair of points. -/
def segCmds (color : String) (size : Int) : List Point → List DrawCmd
  | p1 :: p2 :: rest => DrawCmd.segment p1 p2 color size :: segCmds color size (p2 :: rest)
  | _ => []

/-- The per-stroke body of `redrawAll`: `if (pts.length === 1)` draw a dot
at `pts[0]`, else run the segment loop. -/
def drawStrokeCmds (s : Stroke) : List DrawCmd :=
  match s.points with
  | [p] => [DrawCmd.dot p s.color s.size]
  | _ => segCmds s.color s.size s.points

/-- `redrawAll()`: clears the whole canvas, then replays every stroke of
`strokes` in order.  Because the canvas is first cleared, the resulting
surface is exactly the list of commands issued, which is what we return.
Note the source iterates only over `strokes`; `currentStroke` is not
drawn. -/
def redrawAll (strokes : List Stroke) : List DrawCmd :=
  (strokes.map drawStrokeCmds).flatten

/-- Modelled from the spec (§4.2 Renderer): the surface a stroke describes
— a single point is a filled dot of diameter `size` at that point, two or
more points give consecutive segments of width `size` between consecutive
points. -/
def specStrokeSurface (s : Stroke) : List DrawCmd :=
  match s.points with
  | [] => []
  | [p] => [DrawCmd.dot p s.color s.size]
  | ps => (ps.zip ps.tail).map fun q => DrawCmd.segment q.1 q.2 s.color s.size

/-- Modelled from the spec (§4.2 Renderer contract): clear the surface,
draw every committed stroke in order, then draw the in-progress stroke (if
present) on top using the same rule. -/
def renderSpecSurface (strokes : List Stroke) (inProgress : Option Stroke) :
    List DrawCmd :=
  (strokes.map specStrokeSurface).flatten ++
    match inProgress with
    | some s => specStrokeSurface s
    | none => []

/-! ## Operation sequences and reachability -/

/-- One user-level operation on the drawing state, as dispatched by the
event handlers: pointer-down (`beginStroke` with the current color/size),
pointer-move (`addPointToStroke`), pointer-up (`endStroke`), the Undo
button (`undoLast`) and the confirmed Clear button (`clearCanvas`). -/
inductive Op where
  | beginOp (x y : ℚ) (color : String) (size : Int)
  | extendOp (x y : ℚ)
  | endOp
  | undoOp
  | clearOp
deriving DecidableEq, Repr

/-- Apply one operation to the state. -/
def applyOp (st : DrawState) : Op → DrawState
  | .beginOp x y c s => beginStroke st x y c s
  | .extendOp x y => addPointToStroke st x y
  | .endOp => endStroke st
  | .undoOp => undoLast st
  | .clearOp => clearCanvas st

/-- Run a sequence of operations from a state. -/
def runOps (st : DrawState) (ops : List Op) : DrawState :=
  ops.foldl applyOp st

/-- Apply `addPointToStroke` once per point of a list, in order (a sequence
of pointer-move events). -/
def extendAll (st : DrawState) (ps : List Point) : DrawState :=
  ps.foldl (fun s p => addPointToStroke s p.x p.y) st

/-! ## The SVG bounce animation -/

/-- The module-level state of the SVG animation: `svgAnimReq` (the pending
`requestAnimationFrame` handle or `null`), the position `svgX`, the
direction `svgDir` (`1` or `-1`), `svgPlaying` and `lastTimestamp`. -/
structure AnimState where
  svgPlaying : Bool
  svgAnimReq : Option Nat
  svgX : ℚ
  svgDir : ℚ
  lastTimestamp : Option ℚ
deriving DecidableEq, Repr

/-- `let svgMin = 30`. -/
def svgMin : ℚ := 30

/-- `let svgMax = 770`. -/
def svgMax : ℚ := 770

/-- `let svgVelocityBase = 100` (pixels per second at speed 1). -/
def svgVelocityBase : ℚ := 100

/-- One run of the frame callback `svgAnimate(ts)`: computes `dt` from
`lastTimestamp` (zero on the first frame), advances `svgX` by
`svgDir * svgVelocityBase * speedFactor * dt`, clamps and reverses at
`svgMax`/`svgMin`, and reschedules (`svgAnimReq = requestAnimationFrame`,
modelled by the fresh handle `req`) only if `svgPlaying`. -/
def svgAnimate (st : AnimState) (ts : ℚ) (speedFactor : ℚ) (req : Nat) :
    AnimState :=
  let last := match st.lastTimestamp with | none => ts | some l => l
  let dt := (ts - last) / 1000
  let velocity := svgVelocityBase * speedFactor
  let x1 := st.svgX + st.svgDir * velocity * dt
  let st1 :=
    if x1 ≥ svgMax then { st with svgX := svgMax, svgDir := -1 }
    else if x1 ≤ svgMin then { st with svgX := svgMin, svgDir := 1 }
    else { st with svgX := x1 }
  let st2 := { st1 with lastTimestamp := some ts }
  if st2.svgPlaying then { st2 with svgAnimReq := some req } else st2

/-- `startSvg()` (the Play button): returns immediately when already
`svgPlaying`; otherwise sets `svgPlaying = true`, resets `lastTimestamp`
and schedules a frame (modelled by the fresh handle `req`). -/
def startSvg (st : AnimState) (req : Nat) : AnimState :=
  if st.svgPlaying then st
  else { st with svgPlaying := true, lastTimestamp := none, svgAnimReq := some req }

/-- `pauseSvgAnim()` (the Pause button): sets `svgPlaying = false` and, if
a frame is pending, cancels it and nulls `svgAnimReq`. -/
def pauseSvgAnim (st : AnimState) : AnimState :=
  match st.svgAnimReq with
  | some _ => { st with svgPlaying := false, svgAnimReq := none }
  | none => { st with svgPlaying := false }

/-! ## The product-listing script -/

/-- One record of the product catalog, as destructured by
`renderProducts`. -/
structure Product where
  title : String
  price : ℚ
  category : String
  image : String
deriving DecidableEq, Repr

/-- The page state: the globally saved `window.allProducts` and the list
of products currently rendered into the `product-list` container. -/
structure PageState where
  allProducts : List Product
  rendered : List Product
deriving DecidableEq, Repr

/-- `sortPriceLow()`: sorts a spread copy `[...allProducts]` ascending by
the comparator `(a, b) => a.price - b.price` (JS `Array.prototype.sort`
is stable, modelled by `mergeSort`) and renders the result;
`allProducts` itself is untouched. -/
def sortPriceLow (s : PageState) : PageState :=
  { s with rendered := s.allProducts.mergeSort fun a b => a.price ≤ b.price }

/-- `sortPriceHigh()`: same with the comparator `(a, b) => b.price -
a.price` (descending by price). -/
def sortPriceHigh (s : PageState) : PageState :=
  { s with rendered := s.allProducts.mergeSort fun a b => b.price ≤ a.price }

/-- `filterCategory(category)`: renders
`allProducts.filter(product => product.category === category)`;
`allProducts` itself is untouched. -/
def filterCategory (s : PageState) (category : String) : PageState :=
  { s with rendered := s.allProducts.filter fun p => p.category == category }

/-! ## Helper lemmas -/

/-- The segment loop of `redrawAll` issues exactly one segment per
consecutive pair of points. -/
theorem segCmds_eq_zip (c : String) (sz : Int) (ps : List Point) :
    segCmds c sz ps
      = (ps.zip ps.tail).map fun q => DrawCmd.segment q.1 q.2 c sz := by
  induction ps with
  | nil => rfl
  | cons p rest ih =>
      cases rest with
      | nil => rfl
      | cons p2 r2 => simp [segCmds, ih]

/-- Per stroke, the commands `redrawAll` issues are the surface the spec
describes for that stroke. -/
theorem drawStrokeCmds_eq_spec (s : Stroke) :
    drawStrokeCmds s = specStrokeSurface s := by
  obtain ⟨c, sz, ps⟩ := s
  rcases ps with _ | ⟨p1, _ | ⟨p2, rest⟩⟩
  · rfl
  · rfl
  · show segCmds c sz (p1 :: p2 :: rest) = _
    rw [segCmds_eq_zip]
    rfl

/-! ## C1: the full redraw -/

/-- C1 (counterexample): in the reachable state obtained by a single
`beginStroke(0, 0)` (color "red", size 4) there is an in-progress stroke,
yet the surface produced by `redrawAll` differs from the spec's
"strokes plus the in-progress stroke" surface: `redrawAll` never draws
`currentStroke`. -/
theorem redrawAll_misses_inProgress :
    (runOps initState [Op.beginOp 0 0 "red" 4]).currentStroke
        = some ⟨"red", 4, [⟨0, 0⟩]⟩ ∧
    redrawAll (runOps initState [Op.beginOp 0 0 "red" 4]).strokes
      ≠ renderSpecSurface (runOps initState [Op.beginOp 0 0 "red" 4]).strokes
          (runOps initState [Op.beginOp 0 0 "red" 4]).currentStroke := by
  decide

/-- C1 (amended): `redrawAll` first fully clears the surface and then
draws every committed stroke of `strokes` in commit order (a one-point
stroke as a filled dot of diameter `size` at its point, a multi-point
stroke as consecutive segments of width `size` between consecutive
points), but it does not draw the in-progress stroke: the surface a full
redraw produces equals the surface the spec describes for the committed
strokes alone (in-progress slot empty). -/
theorem redrawAll_eq_committed_surface (strokes : List Stroke) :
    redrawAll strokes = renderSpecSurface strokes none := by
  have h : drawStrokeCmds = specStrokeSurface := funext drawStrokeCmds_eq_spec
  simp [redrawAll, renderSpecSurface, h]

/-! ## C4: clear -/

/-- C4: after `clearCanvas` the strokes list is empty and there is no
in-progress stroke, whatever the prior state. -/
theorem clearCanvas_correct (st : DrawState) :
    (clearCanvas st).strokes = [] ∧ (clearCanvas st).currentStroke = none :=
  ⟨rfl, rfl⟩

/-! ## C7: determinism of the renderer -/

/-- C7: the renderer is deterministic — two invocations of `redrawAll` on
identical strokes content produce identical surfaces (in the embedding,
`redrawAll` reads nothing but its argument). -/
theorem redrawAll_deterministic (s1 s2 : List Stroke) (h : s1 = s2) :
    redrawAll s1 = redrawAll s2 := by
  rw [h]

/-- Witness for C7 at a concrete strokes list. -/
theorem redrawAll_deterministic_witness :
    redrawAll [⟨"red", 4, [⟨0, 0⟩, ⟨10, 0⟩]⟩]
      = redrawAll [⟨"red", 4, [⟨0, 0⟩, ⟨10, 0⟩]⟩] :=
  redrawAll_deterministic _ _ rfl

/-! ## C2: begin / extend* / end -/

/-- While a stroke is in progress, a run of `addPointToStroke` calls
appends exactly the given points, in order, to the current stroke, and
touches nothing else. -/
theorem extendAll_drawing_some (ps : List Point) :
    ∀ (st : DrawState) (cs : Stroke), st.drawing = true →
      st.currentStroke = some cs →
      extendAll st ps
        = { st with currentStroke := some { cs with points := cs.points ++ ps } } := by
  induction ps with
  | nil =>
      intro st cs hd hc
      obtain ⟨d, c, ss⟩ := st
      simp only [extendAll, List.foldl_nil, List.append_nil]
      simp_all
  | cons p rest ih =>
      intro st cs hd hc
      have h1 : addPointToStroke st p.x p.y
          = { st with currentStroke := some { cs with points := cs.points ++ [p] } } := by
        simp [addPointToStroke, hd, hc]
      simp only [extendAll, List.foldl_cons] at *
      rw [h1, ih _ { cs with points := cs.points ++ [p] } (by simpa using hd) rfl]
      simp

/-- C2: from any prior state with no stroke in progress, the sequence
`beginStroke(p0)` (with color `c`, size `sz`), `addPointToStroke(p1)`, …,
`addPointToStroke(pN)`, `endStroke()` appends exactly one stroke at the
end of `strokes` — with color `c`, size `sz` and points `[p0, p1, …, pN]`
in order — and leaves no stroke in progress. -/
theorem begin_extend_end_commits (st : DrawState)
    (h : st.currentStroke = none) (p0 : Point) (c : String) (sz : Int)
    (ps : List Point) :
    (endStroke (extendAll (beginStroke st p0.x p0.y c sz) ps)).strokes
        = st.strokes ++ [⟨c, sz, p0 :: ps⟩] ∧
    (endStroke (extendAll (beginStroke st p0.x p0.y c sz) ps)).strokes.length
        = st.strokes.length + 1 ∧
    (endStroke (extendAll (beginStroke st p0.x p0.y c sz) ps)).currentStroke
        = none := by
  have hb : beginStroke st p0.x p0.y c sz
      = { st with drawing := true, currentStroke := some ⟨c, sz, [p0]⟩ } := rfl
  rw [hb, extendAll_drawing_some ps _ ⟨c, sz, [p0]⟩ rfl rfl]
  simp [endStroke]

/-- Witness for C2: the spec's §8 scenario `begin((0,0), "red", 4)`,
`extend((10,0))`, `extend((10,10))`, `end()` from the initial state yields
exactly one committed stroke with those three points. -/
theorem begin_extend_end_commits_witness :
    initState.currentStroke = none ∧
    (endStroke (extendAll (beginStroke initState 0 0 "red" 4)
        [⟨10, 0⟩, ⟨10, 10⟩])).strokes
      = initState.strokes ++ [⟨"red", 4, [⟨0, 0⟩, ⟨10, 0⟩, ⟨10, 10⟩]⟩] :=
  ⟨rfl,
    (begin_extend_end_commits initState rfl ⟨0, 0⟩ "red" 4
      [⟨10, 0⟩, ⟨10, 10⟩]).1⟩

/-! ## C3: undo -/

/-- C3: `undoLast` on an empty strokes list is a no-op (length stays 0);
on a non-empty list it removes exactly the last committed stroke, leaving
all earlier strokes and their point sequences unchanged as an
order-preserving prefix; and it never modifies the in-progress stroke. -/
theorem undoLast_correct (st : DrawState) :
    (st.strokes = [] → (undoLast st).strokes = []) ∧
    (st.strokes ≠ [] → ∃ last, st.strokes.getLast? = some last ∧
        st.strokes = (undoLast st).strokes ++ [last]) ∧
    (undoLast st).currentStroke = st.currentStroke ∧
    (undoLast st).drawing = st.drawing := by
  refine ⟨fun h => by simp [undoLast, h], fun h => ?_, rfl, rfl⟩
  refine ⟨st.strokes.getLast h, List.getLast?_eq_getLast _ h, ?_⟩
  exact (List.dropLast_append_getLast h).symm

/-- Witness for C3: undoing a two-stroke state keeps the first stroke as
the prefix and drops the second; undoing the empty initial state keeps
the list empty. -/
theorem undoLast_correct_witness :
    (∃ last,
        (DrawState.mk false none
            [⟨"red", 4, [⟨0, 0⟩]⟩, ⟨"blue", 2, [⟨5, 5⟩]⟩]).strokes.getLast?
          = some last ∧
        (DrawState.mk false none
            [⟨"red", 4, [⟨0, 0⟩]⟩, ⟨"blue", 2, [⟨5, 5⟩]⟩]).strokes
          = (undoLast (DrawState.mk false none
              [⟨"red", 4, [⟨0, 0⟩]⟩, ⟨"blue", 2, [⟨5, 5⟩]⟩])).strokes ++ [last]) ∧
    (undoLast initState).strokes = [] :=
  ⟨(undoLast_correct (DrawState.mk false none
      [⟨"red", 4, [⟨0, 0⟩]⟩, ⟨"blue", 2, [⟨5, 5⟩]⟩])).2.1 (by decide),
   (undoLast_correct initState).1 rfl⟩

/-! ## C5: totality and the silent-discard policy -/

/-- C5: the stroke operations are total functions on the state;
`addPointToStroke` with no stroke in progress (drawing flag down, or no
current stroke) leaves the state unchanged; `endStroke` with the drawing
flag down leaves the state unchanged, and with no current stroke commits
nothing and leaves the in-progress slot empty; `beginStroke` in any state
(in particular while a stroke is already in progress) silently replaces
the in-progress stroke by a fresh one whose points are `[p]`, leaving the
committed strokes untouched. -/
theorem strokeOps_total_policy (st : DrawState) (x y : ℚ) (p : Point)
    (c : String) (sz : Int) :
    (st.drawing = false →
      addPointToStroke st x y = st ∧ endStroke st = st) ∧
    (st.currentStroke = none → addPointToStroke st x y = st) ∧
    (st.currentStroke = none →
      (endStroke st).strokes = st.strokes ∧
      (endStroke st).currentStroke = none) ∧
    (beginStroke st p.x p.y c sz).currentStroke = some ⟨c, sz, [p]⟩ ∧
    (beginStroke st p.x p.y c sz).strokes = st.strokes := by
  refine ⟨fun h => ⟨by simp [addPointToStroke, h], by simp [endStroke, h]⟩,
    fun h => ?_, fun h => ?_, rfl, rfl⟩
  · by_cases hd : st.drawing = false <;> simp [addPointToStroke, hd, h]
  · by_cases hd : st.drawing = false
    · simp [endStroke, hd, h]
    · simp [endStroke, hd, h]

/-- Witness for C5: in the initial state (drawing flag down, no current
stroke) `addPointToStroke` and `endStroke` are no-ops, and a
`beginStroke` right after another `beginStroke` replaces the in-progress
stroke and keeps `strokes` empty. -/
theorem strokeOps_total_policy_witness :
    addPointToStroke initState 1 2 = initState ∧
    endStroke initState = initState ∧
    (beginStroke (beginStroke initState 1 2 "red" 4) 3 4 "blue" 2).currentStroke
      = some ⟨"blue", 2, [⟨3, 4⟩]⟩ ∧
    (beginStroke (beginStroke initState 1 2 "red" 4) 3 4 "blue" 2).strokes
      = (beginStroke initState 1 2 "red" 4).strokes := by
  have h1 := strokeOps_total_policy initState 1 2 ⟨3, 4⟩ "blue" 2
  have h2 := strokeOps_total_policy (beginStroke initState 1 2 "red" 4)
    1 2 ⟨3, 4⟩ "blue" 2
  exact ⟨(h1.1 rfl).1, (h1.1 rfl).2, h2.2.2.2.1, h2.2.2.2.2⟩

/-! ## C6: committed strokes are non-empty -/

/-- Each single operation preserves "every committed stroke has at least
one point": `beginStroke`/`addPointToStroke` do not touch `strokes`,
`endStroke` commits only a stroke whose point count is positive,
`undoLast` keeps a sublist and `clearCanvas` empties the list. -/
theorem applyOp_preserves_nonempty (st : DrawState) (op : Op)
    (h : ∀ s ∈ st.strokes, s.points ≠ []) :
    ∀ s ∈ (applyOp st op).strokes, s.points ≠ [] := by
  cases op with
  | beginOp x y c sz => simpa [applyOp, beginStroke] using h
  | extendOp x y =>
      intro s hs
      have he : (addPointToStroke st x y).strokes = st.strokes := by
        by_cases hd : st.drawing = false
        · simp [addPointToStroke, hd]
        · cases hc : st.currentStroke <;> simp [addPointToStroke, hd, hc]
      rw [show applyOp st (.extendOp x y) = addPointToStroke st x y from rfl,
        he] at hs
      exact h s hs
  | endOp =>
      intro s hs
      rw [show applyOp st .endOp = endStroke st from rfl] at hs
      by_cases hd : st.drawing = false
      · rw [show endStroke st = st from by simp [endStroke, hd]] at hs
        exact h s hs
      · cases hc : st.currentStroke with
        | none =>
            simp [endStroke, hd, hc] at hs
            exact h s hs
        | some cs =>
            by_cases hl : cs.points.length > 0
            · simp [endStroke, hd, hc, hl] at hs
              rcases hs with hs | hs
              · exact h s hs
              · subst hs
                exact List.ne_nil_of_length_pos hl
            · simp [endStroke, hd, hc, hl] at hs
              exact h s hs
  | undoOp =>
      intro s hs
      exact h s ((List.dropLast_sublist st.strokes).subset hs)
  | clearOp =>
      intro s hs
      simp [applyOp, clearCanvas] at hs
  
/-- Preservation of the non-empty-points invariant along any run. -/
theorem runOps_preserves_nonempty (ops : List Op) :
    ∀ st : DrawState, (∀ s ∈ st.strokes, s.points ≠ []) →
      ∀ s ∈ (runOps st ops).strokes, s.points ≠ [] := by
  induction ops with
  | nil => intro st h; simpa [runOps] using h
  | cons op rest ih =>
      intro st h
      simp only [runOps, List.foldl_cons] at *
      exact ih (applyOp st op) (applyOp_preserves_nonempty st op h)

/-- C6: in every state reachable from the initial empty state by any
sequence of begin/extend/end/undo/clear operations, every committed
stroke has a non-empty points sequence. -/
theorem committed_strokes_nonempty (ops : List Op) (s : Stroke)
    (hs : s ∈ (runOps initState ops).strokes) : s.points ≠ [] :=
  runOps_preserves_nonempty ops initState (by simp [initState]) s hs

/-- Witness for C6: after `begin; end` the single committed stroke indeed
has a non-empty point list. -/
theorem committed_strokes_nonempty_witness :
    (⟨"red", 4, [⟨0, 0⟩]⟩ : Stroke)
        ∈ (runOps initState [Op.beginOp 0 0 "red" 4, Op.endOp]).strokes ∧
    (⟨"red", 4, [⟨0, 0⟩]⟩ : Stroke).points ≠ [] :=
  ⟨by decide, committed_strokes_nonempty [Op.beginOp 0 0 "red" 4, Op.endOp]
    ⟨"red", 4, [⟨0, 0⟩]⟩ (by decide)⟩

/-! ## C8: the animation loop state machine -/

/-- C8: the play/pause/frame transitions form the claimed two-state
machine — `pauseSvgAnim` lowers the running flag and cancels the pending
frame; `startSvg` in the running state is a no-op and in the stopped
state raises the flag and schedules a frame; `pauseSvgAnim` in the
stopped state (no pending frame) is a no-op; and the frame callback
`svgAnimate` reschedules a next frame exactly when the running flag is
set. -/
theorem animLoop_state_machine (st : AnimState) (req : Nat) (ts sf : ℚ) :
    ((pauseSvgAnim st).svgPlaying = false ∧
     (pauseSvgAnim st).svgAnimReq = none) ∧
    (st.svgPlaying = true → startSvg st req = st) ∧
    (st.svgPlaying = false →
      (startSvg st req).svgPlaying = true ∧
      (startSvg st req).svgAnimReq = some req) ∧
    (st.svgPlaying = false → st.svgAnimReq = none → pauseSvgAnim st = st) ∧
    (st.svgPlaying = true →
      (svgAnimate st ts sf req).svgAnimReq = some req) ∧
    (st.svgPlaying = false →
      (svgAnimate st ts sf req).svgAnimReq = st.svgAnimReq) := by
  refine ⟨⟨?_, ?_⟩, fun h => ?_, fun h => ?_, fun h h2 => ?_,
    fun h => ?_, fun h => ?_⟩
  · cases hr : st.svgAnimReq <;> simp [pauseSvgAnim, hr]
  · cases hr : st.svgAnimReq <;> simp [pauseSvgAnim, hr]
  · simp [startSvg, h]
  · simp [startSvg, h]
  · obtain ⟨pl, rq, x, dir, lt⟩ := st
    simp only at h h2
    subst h h2
    simp [pauseSvgAnim]
  · simp only [svgAnimate]
    split_ifs <;> simp_all
  · simp only [svgAnimate]
    split_ifs <;> simp_all

/-- Witness for C8 at concrete states: play while running is a no-op,
pause while stopped (nothing pending) is a no-op, and a frame while
running reschedules. -/
theorem animLoop_state_machine_witness :
    startSvg ⟨true, some 0, 50, 1, none⟩ 1 = ⟨true, some 0, 50, 1, none⟩ ∧
    pauseSvgAnim ⟨false, none, 50, 1, none⟩ = ⟨false, none, 50, 1, none⟩ ∧
    (svgAnimate ⟨true, some 0, 50, 1, none⟩ 16 1 2).svgAnimReq = some 2 := by
  have h1 := animLoop_state_machine ⟨true, some 0, 50, 1, none⟩ 1 16 1
  have h2 := animLoop_state_machine ⟨false, none, 50, 1, none⟩ 1 16 1
  have h3 := animLoop_state_machine ⟨true, some 0, 50, 1, none⟩ 2 16 1
  exact ⟨h1.2.1 rfl, h2.2.2.2.1 rfl rfl, h3.2.2.2.2.1 rfl⟩

/-! ## C9: the bounce keeps the position in range -/

/-- C9: after any single frame step, the position `svgX` lies in the
closed interval `[svgMin, svgMax] = [30, 770]` — whatever the elapsed
time (non-negative) and speed factor (non-negative), and even if the
pre-step position was outside the interval — because the step clamps
overshoot to the nearest bound and reverses direction there. -/
theorem svgAnimate_position_clamped (st : AnimState) (ts sf : ℚ) (req : Nat)
    (hsf : 0 ≤ sf)
    (hts : ∀ l, st.lastTimestamp = some l → l ≤ ts) :
    svgMin ≤ (svgAnimate st ts sf req).svgX ∧
    (svgAnimate st ts sf req).svgX ≤ svgMax := by
  simp only [svgAnimate]
  split_ifs with h1 h2 <;>
    simp_all [svgMin, svgMax] <;> constructor <;> linarith

/-- Witness for C9: a concrete frame step (speed 1, 16 ms after the last
timestamp) lands inside `[svgMin, svgMax]`. -/
theorem svgAnimate_position_clamped_witness :
    (0 : ℚ) ≤ 1 ∧
    (AnimState.mk true (some 0) 50 1 (some 0)).lastTimestamp = some 0 ∧
    (0 : ℚ) ≤ 16 ∧
    svgMin ≤ (svgAnimate ⟨true, some 0, 50, 1, some 0⟩ 16 1 1).svgX ∧
    (svgAnimate ⟨true, some 0, 50, 1, some 0⟩ 16 1 1).svgX ≤ svgMax := by
  refine ⟨by norm_num, rfl, by norm_num, ?_⟩
  refine svgAnimate_position_clamped ⟨true, some 0, 50, 1, some 0⟩ 16 1 1
    (by norm_num) ?_
  intro l hl
  simp only [Option.some.injEq] at hl
  rw [← hl]
  norm_num

/-! ## C10: the product-listing operations do not mutate the catalog -/

/-- C10: `sortPriceLow`, `sortPriceHigh` and `filterCategory` leave
`allProducts` unchanged; the two sorts render a permutation of
`allProducts` ordered by price (ascending resp. descending); and
`filterCategory` renders exactly the products of `allProducts` whose
`category` equals the given one. -/
theorem productOps_pure (s : PageState) (category : String) :
    (sortPriceLow s).allProducts = s.allProducts ∧
    (sortPriceHigh s).allProducts = s.allProducts ∧
    (filterCategory s category).allProducts = s.allProducts ∧
    ((sortPriceLow s).rendered).Perm s.allProducts ∧
    ((sortPriceHigh s).rendered).Perm s.allProducts ∧
    List.Pairwise (fun a b : Product => a.price ≤ b.price)
      (sortPriceLow s).rendered ∧
    List.Pairwise (fun a b : Product => b.price ≤ a.price)
      (sortPriceHigh s).rendered ∧
    ∀ p : Product, p ∈ (filterCategory s category).rendered ↔
      p ∈ s.allProducts ∧ p.category = category := by
  refine ⟨rfl, rfl, rfl, List.mergeSort_perm _ _, List.mergeSort_perm _ _,
    ?_, ?_, ?_⟩
  · have h := @List.sorted_mergeSort Product
      (fun a b : Product => decide (a.price ≤ b.price))
      (fun a b c hab hbc => by
        simp only [decide_eq_true_eq] at *
        exact le_trans hab hbc)
      (fun a b => by
        simp only [Bool.or_eq_true, decide_eq_true_eq]
        exact le_total _ _)
      s.allProducts
    exact h.imp fun hab => by simpa using hab
  · have h := @List.sorted_mergeSort Product
      (fun a b : Product => decide (b.price ≤ a.price))
      (fun a b c hab hbc => by
        simp only [decide_eq_true_eq] at *
        exact le_trans hbc hab)
      (fun a b => by
        simp only [Bool.or_eq_true, decide_eq_true_eq]
        exact le_total _ _)
      s.allProducts
    exact h.imp fun hab => by simpa using hab
  · intro p
    simp [filterCategory, List.mem_filter]

/-- Witness for C10 at a concrete two-product catalog: the catalog is
unchanged by a sort, and a concrete product is in the filtered rendering
exactly because its category matches. -/
theorem productOps_pure_witness :
    (sortPriceLow ⟨[⟨"a", 5, "men", "ia"⟩, ⟨"b", 3, "women", "ib"⟩], []⟩).allProducts
      = [⟨"a", 5, "men", "ia"⟩, ⟨"b", 3, "women", "ib"⟩] ∧
    ((⟨"b", 3, "women", "ib"⟩ : Product) ∈
      (filterCategory ⟨[⟨"a", 5, "men", "ia"⟩, ⟨"b", 3, "women", "ib"⟩], []⟩
        "women").rendered) := by
  have h := productOps_pure
    ⟨[⟨"a", 5, "men", "ia"⟩, ⟨"b", 3, "women", "ib"⟩], []⟩ "women"
  exact ⟨h.1, (h.2.2.2.2.2.2.2 ⟨"b", 3, "women", "ib"⟩).mpr ⟨by decide, rfl⟩⟩
